import Mathlib

/-!
Verification development for the rag-unit-testing repository.

The definitions below are a shallow embedding of the repository's TypeScript
source (src/chromadb.ts, src/vectordb.ts and the extension module):

* the regex-based C-function extractor `parseCFunctions` (chromadb.ts:601-654,
  identical copies at chromadb.ts:52-105, vectordb.ts:103-168 and the first
  copy in the extension sources) and the enhanced two-pass variant
  `parseCFunctionsExt` from the extension module;
* `cosineSimilarity` (chromadb.ts:659-675);
* the `SimpleVectorManager` embedding scheduler: `generateEmbedding`
  (chromadb.ts:857-900) and `processBatch` (chromadb.ts:905-966) together with
  the embedding cache;
* `storeFileContext` (chromadb.ts:992-1079).

Strings are modelled as `List Char`; JavaScript numbers used for timestamps
are modelled as `Nat`; embedding-vector components are modelled as `ℚ`.
The regular expressions are embedded as specialised backtracking matchers that
follow the JavaScript engine's leftmost-match, lazy/greedy and alternation
ordering for the exact patterns appearing in the source.
-/

/-! ## Character classes of the JavaScript regexes -/

/-- JavaScript regex class `\w` = `[A-Za-z0-9_]`. -/
def isWordChar (c : Char) : Bool :=
  c.isAlpha || c.isDigit || c = '_'

/-- JavaScript regex class `\s` (restricted to the ASCII whitespace characters,
which are the only whitespace characters occurring in the source inputs). -/
def isJsSpace (c : Char) : Bool :=
  c = ' ' || c = '\t' || c = '\n' || c = '\r' || c = '\x0b' || c = '\x0c'

/-- Line terminators recognised by a multiline `^` assertion (LF and CR). -/
def isLineTerm (c : Char) : Bool :=
  c = '\n' || c = '\r'

/-- Character class `[\w\s\*]` of capture group 1 (the return type). -/
def isG1Char (c : Char) : Bool :=
  isWordChar c || isJsSpace c || c = '*'

/-- Character class `[a-zA-Z_]` (identifier start). -/
def isIdentStart (c : Char) : Bool :=
  c.isAlpha || c = '_'

/-! ## JavaScript string helpers -/

/-- `String.prototype.trim`: drop whitespace from both ends. -/
def jsTrim (l : List Char) : List Char :=
  ((l.dropWhile isJsSpace).reverse.dropWhile isJsSpace).reverse

/-- `replace(/\s+/g, " ")`: collapse every maximal whitespace run to a single
space (used to normalise the return type). -/
def collapseWs : List Char → List Char
  | [] => []
  | a :: r =>
    if isJsSpace a then
      match r with
      | b :: r' => if isJsSpace b then collapseWs (b :: r') else ' ' :: collapseWs (b :: r')
      | [] => [' ']
    else a :: collapseWs r

/-- `split(",")` on a character list. -/
def splitOnComma : List Char → List (List Char)
  | [] => [[]]
  | c :: r =>
    if c = ',' then [] :: splitOnComma r
    else
      match splitOnComma r with
      | h :: t => (c :: h) :: t
      | [] => [[c]]

/-- Whether the list has the given list as a prefix (JS `startsWith`). -/
def strStarts : List Char → List Char → Bool
  | _, [] => true
  | [], _ :: _ => false
  | c :: r, p :: ps => c = p && strStarts r ps

/-! ## Comment stripping

`fileContent.replace(/\/\*[\s\S]*?\*\//g, "").replace(/\/\/.*$/gm, "")`
(chromadb.ts:605-607). -/

/-- Position just after the first occurrence of the two-character sequence
`*/`, if any (the lazy `[\s\S]*?` stops at the nearest `*/`). -/
def findBlockEnd : List Char → Option (List Char)
  | '*' :: '/' :: r => some r
  | _ :: r => findBlockEnd r
  | [] => none

/-- `replace(/\/\*[\s\S]*?\*\//g, "")`: remove each `/*`...`*/` block; an
unterminated `/*` has no match and is kept verbatim.  `fuel` bounds the
recursion; it is initialised to the length of the input, which suffices
because every step consumes at least one character. -/
def stripBlockAux : Nat → List Char → List Char
  | 0, l => l
  | fuel + 1, l =>
    match l with
    | '/' :: '*' :: r =>
      match findBlockEnd r with
      | some r' => stripBlockAux fuel r'
      | none => '/' :: '*' :: r
    | c :: r => c :: stripBlockAux fuel r
    | [] => []

def stripBlockComments (l : List Char) : List Char :=
  stripBlockAux l.length l

/-- `replace(/\/\/.*$/gm, "")`: remove from each `//` to the end of its line
(`.` does not match line terminators, so the terminator itself survives). -/
def stripLineAux : Nat → List Char → List Char
  | 0, l => l
  | fuel + 1, l =>
    match l with
    | '/' :: '/' :: r => stripLineAux fuel (r.dropWhile (fun c => !isLineTerm c))
    | c :: r => c :: stripLineAux fuel r
    | [] => []

def stripLineComments (l : List Char) : List Char :=
  stripLineAux l.length l

/-! ## The function-definition regex

`/^([\w\s\*]+?)\s+(\w+)\s*\(([^)]*)\)\s*(?:;|\{([\s\S]*?)(?:^|\n)\s*\})/gm`
(chromadb.ts:610-611).  Each stage below embeds one fragment of the pattern.
A stage returns `(capture, consumed, rest)`.  Stages whose greedy/lazy
behaviour is forced (because the following literal cannot occur inside the
repeated class) are implemented by maximal munch, which coincides with the
backtracking engine's result for these fragments. -/

/-- `\s*\}` at the end of a function body.  Greedy `\s*` is forced: a shorter
munch leaves a whitespace character where `}` is required. -/
def matchCloseBrace (l : List Char) : Option (List Char × List Char) :=
  let sp := l.takeWhile isJsSpace
  match l.dropWhile isJsSpace with
  | '}' :: r' => some (sp ++ ['}'], r')
  | _ => none

/-- `([\s\S]*?)(?:^|\n)\s*\}` after the opening `{` of a body: the lazy group
grows one character at a time; at each stop the engine first tries the
zero-width `^` (which in multiline mode holds just after a line terminator)
and then a literal `\n`.  `prev` is the character immediately before the
current position.  Returns `(group4, consumed, rest)`. -/
def matchBody (prev : Char) (l : List Char) : Option (List Char × List Char × List Char) :=
  let viaCaret : Option (List Char × List Char × List Char) :=
    if isLineTerm prev then (matchCloseBrace l).map (fun p => ([], p.1, p.2)) else none
  let viaNewline : Option (List Char × List Char × List Char) :=
    match l with
    | '\n' :: r => (matchCloseBrace r).map (fun p => ([], '\n' :: p.1, p.2))
    | _ => none
  (viaCaret <|> viaNewline) <|>
    match l with
    | [] => none
    | c :: r => (matchBody c r).map (fun p => (c :: p.1, c :: p.2.1, p.2.2))

/-- `\s*(?:;|\{BODY\})`: the tail of the full pattern, with the declaration
(`;`) alternative.  Returns `(group4?, consumed, rest)`; `group4 = none` for
the `;` branch (an undefined capture). -/
def matchTailSemiOrBody (l : List Char) : Option (Option (List Char) × List Char × List Char) :=
  let sp := l.takeWhile isJsSpace
  match l.dropWhile isJsSpace with
  | ';' :: r' => some (none, sp ++ [';'], r')
  | '{' :: r' =>
    (matchBody '{' r').map (fun p => (some p.1, sp ++ '{' :: p.2.1, p.2.2))
  | _ => none

/-- `[\s\n]*\{BODY\}`: the tail of the relaxed fallback pattern (no `;`
alternative — a body is mandatory). -/
def matchTailBodyOnly (l : List Char) : Option (Option (List Char) × List Char × List Char) :=
  let sp := l.takeWhile isJsSpace
  match l.dropWhile isJsSpace with
  | '{' :: r' =>
    (matchBody '{' r').map (fun p => (some p.1, sp ++ '{' :: p.2.1, p.2.2))
  | _ => none

/-- `\s+(NAME)` where `NAME` is `\w+` (basic pattern, `nameStart :=
isWordChar`) or `[a-zA-Z_]\w*` (enhanced patterns, `nameStart :=
isIdentStart`).  Greedy `\s+` and the greedy name are forced to maximal
munch: shorter alternatives put a whitespace (resp. word) character where the
next stage requires a non-whitespace (resp. `(`) character.
Returns `(group2, consumed, rest)`. -/
def matchName (nameStart : Char → Bool) (l : List Char) :
    Option (List Char × List Char × List Char) :=
  let sp := l.takeWhile isJsSpace
  if sp.isEmpty then none
  else
    match l.dropWhile isJsSpace with
    | c :: r' =>
      if nameStart c then
        let w := r'.takeWhile isWordChar
        some (c :: w, sp ++ c :: w, r'.dropWhile isWordChar)
      else none
    | [] => none

/-- `\s*\(([^)]*)\)`: parameters.  `[^)]*` cannot contain `)`, so only the
maximal munch can be followed by the required `)`.
Returns `(group3, consumed, rest)`. -/
def matchParams (l : List Char) : Option (List Char × List Char × List Char) :=
  let sp := l.takeWhile isJsSpace
  match l.dropWhile isJsSpace with
  | '(' :: r' =>
    let g3 := r'.takeWhile (fun c => c ≠ ')')
    match r'.dropWhile (fun c => c ≠ ')') with
    | ')' :: r3 => some (g3, sp ++ '(' :: (g3 ++ [')']), r3)
    | _ => none
  | _ => none

/-- Result of one successful application of a function-definition pattern. -/
structure RegexMatch where
  g1 : List Char
  g2 : List Char
  g3 : List Char
  g4 : Option (List Char)
  matched : List Char
  deriving DecidableEq, Repr

/-- Everything after capture group 1: `\s+(g2)\s*\((g3)\)` then the tail. -/
def matchAfterG1 (nameStart : Char → Bool) (withSemi : Bool) (l : List Char) :
    Option (List Char × List Char × Option (List Char) × List Char × List Char) :=
  match matchName nameStart l with
  | none => none
  | some (g2, c1, r1) =>
    match matchParams r1 with
    | none => none
    | some (g3, c2, r2) =>
      match (if withSemi then matchTailSemiOrBody r2 else matchTailBodyOnly r2) with
      | none => none
      | some (g4, c3, r3) => some (g2, g3, g4, c1 ++ c2 ++ c3, r3)

/-- The lazy group 1 (`[\w\s\*]+?`): candidate lengths are tried in ascending
order; the rest of the pattern is deterministic once group 1 is fixed.
`accRev` is the reversed group-1 text consumed so far. -/
def g1Loop (nameStart : Char → Bool) (withSemi : Bool) (accRev : List Char)
    (l : List Char) : Option (RegexMatch × List Char) :=
  match l with
  | [] => none
  | c :: r =>
    if isG1Char c then
      let acc' := c :: accRev
      match matchAfterG1 nameStart withSemi r with
      | some (g2, g3, g4, con, rest) =>
        some (⟨acc'.reverse, g2, g3, g4, acc'.reverse ++ con⟩, rest)
      | none => g1Loop nameStart withSemi acc' r
    else none

/-- One attempt of the basic pattern at a position (the caller has already
checked the `^` anchor).  Returns the match and the remaining input. -/
def tryMatchBasic (l : List Char) : Option (RegexMatch × List Char) :=
  g1Loop isWordChar true [] l

/-- One attempt of the enhanced first pattern at a position (group 1 is
`[a-zA-Z_][\w\s\*]+?`, the name is `[a-zA-Z_]\w*`; the leading `(?:^|\n)` is
handled by the caller). -/
def tryMatchEnh (l : List Char) : Option (RegexMatch × List Char) :=
  match l with
  | c :: r => if isIdentStart c then g1Loop isIdentStart true [c] r else none
  | [] => none

/-- One attempt of the relaxed fallback pattern
(`([\w\s\*]+?)[\s\n]+([a-zA-Z_]\w*)[\s\n]*\(([^)]*)\)[\s\n]*\{...`). -/
def tryMatchRelaxed (l : List Char) : Option (RegexMatch × List Char) :=
  g1Loop isIdentStart false [] l

/-! ## Parsed function records and match post-processing
(the loop body at chromadb.ts:614-650) -/

/-- The TypeScript `ParsedFunction` interface. -/
structure ParsedFunction where
  functionName : String
  content : String
  parameters : List String
  returnType : String
  deriving DecidableEq, Repr

/-- `match[4]` is falsy when it is `undefined` (the `;` alternative) or the
empty string — `!match[4]` at chromadb.ts:622. -/
def g4Falsy : Option (List Char) → Bool
  | none => true
  | some b => b.isEmpty

/-- The filter at chromadb.ts:616-624: reject candidates whose return-type
text contains `;`, starts (after trimming) with `struct`, `enum`, `typedef`
or `#`, or that have no function body. -/
def rejectMatch (m : RegexMatch) : Bool :=
  let t := jsTrim m.g1
  m.g1.any (fun c => c = ';') ||
    strStarts t "struct".data || strStarts t "enum".data ||
    strStarts t "typedef".data || strStarts t "#".data ||
    g4Falsy m.g4

/-- chromadb.ts:637-642: split the trimmed parameter text on commas, trim each
piece, and drop `void` and empty pieces; an empty parameter text yields the
empty list. -/
def buildParameters (g3 : List Char) : List String :=
  let paramsString := jsTrim g3
  if paramsString.isEmpty then []
  else
    ((splitOnComma paramsString).map (fun p => (jsTrim p).asString)).filter
      (fun p => p ≠ "void" && p ≠ "")

/-- chromadb.ts:627-649: turn an accepted match into a record; the `main`
function is skipped.  Returns `[]` when the candidate is rejected (the loop's
`continue`), so the exec loop appends the result unconditionally. -/
def processMatchBasic (m : RegexMatch) : List ParsedFunction :=
  if rejectMatch m then []
  else
    let returnType := (collapseWs (jsTrim m.g1)).asString
    let functionName := (jsTrim m.g2).asString
    if functionName = "main" then []
    else
      [{ functionName := functionName
         content := m.matched.asString
         parameters := buildParameters m.g3
         returnType := returnType }]

/-! ## The exec loop of the basic parser (chromadb.ts:613-650)

`functionRegex.exec` is repeatedly applied; after each match `lastIndex`
advances past the match, and between matches the engine slides one position
at a time.  The `^` anchor (multiline) restricts match starts to the start of
the input or positions just after a line terminator.  `fuel` bounds the
recursion and is initialised to the input length, which suffices because
every step consumes at least one character. -/

def execBasicAux : Nat → Bool → List Char → List ParsedFunction → List ParsedFunction
  | 0, _, _, acc => acc
  | fuel + 1, prevIsLT, l, acc =>
    match l with
    | [] => acc
    | c :: r =>
      if prevIsLT then
        match tryMatchBasic (c :: r) with
        | some (m, _) =>
          execBasicAux fuel (isLineTerm (m.matched.getLastD c))
            (r.drop (m.matched.length - 1)) (acc ++ processMatchBasic m)
        | none => execBasicAux fuel (isLineTerm c) r acc
      else execBasicAux fuel (isLineTerm c) r acc

/-- `parseCFunctions` (chromadb.ts:601-654; identical copies at
chromadb.ts:52-105 and vectordb.ts:103-168): strip comments, then run the
anchored function-definition regex over the text, collecting records. -/
def parseCFunctions (fileContent : String) : List ParsedFunction :=
  let contentWithoutComments := stripLineComments (stripBlockComments fileContent.data)
  execBasicAux contentWithoutComments.length true contentWithoutComments []

/-! ## The enhanced parser of the extension module

First pass:
`/(?:^|\n)([a-zA-Z_][\w\s\*]+?)[\s\n]+([a-zA-Z_]\w*)[\s\n]*\(([^)]*)\)[\s\n]*(?:;|\{([\s\S]*?)(?:^|\n)\s*\})/gm`
with a dedup-by-functionName guard before each push; if it finds nothing, a
relaxed second pass
`/(?:^|\n)([\w\s\*]+?)[\s\n]+([a-zA-Z_]\w*)[\s\n]*\(([^)]*)\)[\s\n]*\{([\s\S]*?)(?:^|\n)\s*\}/gm`
without the struct/enum/typedef filtering.  (`[\s\n]` is the same class as
`\s`.) -/

/-- First-pass push (the loop body of the enhanced pattern): apply the same
rejection filter as the basic parser, skip `main`, and skip a candidate whose
`functionName` was already claimed; `content` is `match[0].trim()`. -/
def pushEnh (m : RegexMatch) (acc : List ParsedFunction) : List ParsedFunction :=
  if rejectMatch m then acc
  else
    let returnType := (collapseWs (jsTrim m.g1)).asString
    let functionName := (jsTrim m.g2).asString
    if functionName = "main" then acc
    else if acc.any (fun f => f.functionName = functionName) then acc
    else
      acc ++ [{ functionName := functionName
                content := (jsTrim m.matched).asString
                parameters := buildParameters m.g3
                returnType := returnType }]

/-- Second-pass push: only `main` and already-claimed names are skipped. -/
def pushRelaxed (m : RegexMatch) (acc : List ParsedFunction) : List ParsedFunction :=
  let returnType := (collapseWs (jsTrim m.g1)).asString
  let functionName := (jsTrim m.g2).asString
  if functionName = "main" || acc.any (fun f => f.functionName = functionName) then acc
  else
    acc ++ [{ functionName := functionName
              content := (jsTrim m.matched).asString
              parameters := buildParameters m.g3
              returnType := returnType }]

/-- Exec loop for the unanchored enhanced patterns.  At each position the
leading `(?:^|\n)` first tries the zero-width `^` (start of input or just
after a line terminator), then consumes a literal `\n`; on a match the
consumed newline is part of `match[0]` and `lastIndex` advances past the
whole match. -/
def execEnhAux (tryM : List Char → Option (RegexMatch × List Char))
    (push : RegexMatch → List ParsedFunction → List ParsedFunction) :
    Nat → Bool → List Char → List ParsedFunction → List ParsedFunction
  | 0, _, _, acc => acc
  | fuel + 1, prevIsLT, l, acc =>
    match l with
    | [] => acc
    | c :: r =>
      let attempt : Option (RegexMatch × List Char) :=
        (if prevIsLT then tryM (c :: r) else none) <|>
          (if c = '\n' then
            (tryM r).map (fun p => ({ p.1 with matched := '\n' :: p.1.matched }, p.2))
          else none)
      match attempt with
      | some (m, _) =>
        execEnhAux tryM push fuel (isLineTerm (m.matched.getLastD c))
          (r.drop (m.matched.length - 1)) (push m acc)
      | none => execEnhAux tryM push fuel (isLineTerm c) r acc

/-- `parseCFunctions` of the extension module ("enhanced regex" variant):
first pass with filtering and dedup, relaxed second pass only when the first
pass found nothing. -/
def parseCFunctionsExt (fileContent : String) : List ParsedFunction :=
  let contentWithoutComments := stripLineComments (stripBlockComments fileContent.data)
  let functions :=
    execEnhAux tryMatchEnh pushEnh contentWithoutComments.length true contentWithoutComments []
  if functions.length = 0 then
    execEnhAux tryMatchRelaxed pushRelaxed contentWithoutComments.length true
      contentWithoutComments []
  else functions

/-! ## Cosine similarity (chromadb.ts:659-675)

The final expression `dotProduct / (Math.sqrt(normA) * Math.sqrt(normB))` is
irrational-valued in general, so the embedding keeps the three accumulated
sums; the JavaScript function returns the IEEE value of that expression,
which is `NaN` exactly when the denominator is `0` (the numerator is then
necessarily `0` as well, by Cauchy-Schwarz), i.e. exactly when
`normA * normB = 0`.  Raising versus returning — the part the claims are
about — is fully captured. -/

abbrev Vec := List ℚ

/-- The three sums accumulated by the loop at chromadb.ts:668-672. -/
structure CosineRaw where
  dotProduct : ℚ
  normA : ℚ
  normB : ℚ
  deriving DecidableEq, Repr

/-- `cosineSimilarity` (chromadb.ts:659-675): throws when the two vectors have
different lengths, otherwise loops over the components (the guard makes the
index accesses `b[i]` total, so the loop is a fold over `a.zip b`) and
returns the value `dotProduct / (sqrt normA * sqrt normB)`, represented by
its three operands. -/
def cosineSimilarity (a b : Vec) : Except String CosineRaw :=
  if a.length ≠ b.length then .error "Vectors must be of the same length"
  else
    .ok ((a.zip b).foldl
      (fun acc p =>
        { dotProduct := acc.dotProduct + p.1 * p.2
          normA := acc.normA + p.1 * p.1
          normB := acc.normB + p.2 * p.2 })
      { dotProduct := 0, normA := 0, normB := 0 })

/-- The returned JavaScript number is `NaN` iff the denominator
`sqrt(normA) * sqrt(normB)` is zero. -/
def CosineRaw.isNaN (r : CosineRaw) : Bool :=
  r.normA * r.normB = 0

/-! ## Association-list maps

Plain JavaScript objects / `Map`s keyed by the text hash; at most one entry
per key. -/

def mapGet {α β : Type} [DecidableEq α] : List (α × β) → α → Option β
  | [], _ => none
  | (k, v) :: r, a => if k = a then some v else mapGet r a

/-- Property assignment `m[k] = v` (insert or overwrite). -/
def mapSet {α β : Type} [DecidableEq α] (m : List (α × β)) (k : α) (v : β) :
    List (α × β) :=
  (k, v) :: m.filter (fun p => p.1 ≠ k)

/-- `delete m[k]`. -/
def mapDelete {α β : Type} [DecidableEq α] (m : List (α × β)) (k : α) :
    List (α × β) :=
  m.filter (fun p => p.1 ≠ k)

/-! ## The SimpleVectorManager embedding scheduler

State of the manager's mutable fields (chromadb.ts:682-689).  Timestamps
(`Date.now()`) are `Nat` parameters.  `createHash("sha256")...digest("hex")`
is an injective digest of the text; it is modelled by the text itself
(collisions of SHA-256 are assumed absent).  A promise is identified by the
`Nat` drawn from `nextPid` when it is created; `settled` records the outcome
each settled promise was resolved or rejected with. -/

def textHash (text : String) : String := text

/-- Entries of the `EmbeddingCache` interface (chromadb.ts:584-590). -/
structure CacheEntry where
  embedding : Vec
  timestamp : Nat
  expiresAt : Nat
  deriving DecidableEq, Repr

/-- chromadb.ts:593: one week in milliseconds. -/
def CACHE_TTL : Nat := 1000 * 60 * 60 * 24 * 7

/-- chromadb.ts:594: maximum batch size for embedding generation. -/
def BATCH_SIZE : Nat := 10

/-- An entry of `batchQueue` (chromadb.ts:684-688): the text together with
the promise its `resolve`/`reject` pair settles. -/
structure BatchItem where
  text : String
  pid : Nat
  deriving DecidableEq, Repr

/-- Outcome a promise settled with. -/
inductive Settled where
  | resolved (v : Vec)
  | rejected (msg : String)
  deriving DecidableEq, Repr

/-- The manager's mutable state. -/
structure VMState where
  embeddingCache : List (String × CacheEntry)
  pendingEmbeddings : List (String × Nat)
  batchQueue : List BatchItem
  batchTimer : Bool
  nextPid : Nat
  settled : List (Nat × Settled)
  deriving DecidableEq, Repr

def initState : VMState :=
  { embeddingCache := [], pendingEmbeddings := [], batchQueue := []
    batchTimer := false, nextPid := 0, settled := [] }

/-- The cache test at chromadb.ts:868-874: a hit requires an entry whose
`expiresAt` exceeds the current time; an expired entry is passed over (and
left in place). -/
def cacheLookup (cache : List (String × CacheEntry)) (h : String) (now : Nat) :
    Option Vec :=
  match mapGet cache h with
  | some e => if now < e.expiresAt then some e.embedding else none
  | none => none

/-- The cache update at chromadb.ts:931-935:
`{ embedding, timestamp: Date.now(), expiresAt: Date.now() + CACHE_TTL }`. -/
def cachePut (cache : List (String × CacheEntry)) (h : String) (v : Vec) (now : Nat) :
    List (String × CacheEntry) :=
  mapSet cache h { embedding := v, timestamp := now, expiresAt := now + CACHE_TTL }

/-- What `generateEmbedding` hands back to its caller. -/
inductive EmbedOutcome where
  | cached (v : Vec)
  | attached (pid : Nat)
  | enqueued (pid : Nat)
  deriving DecidableEq, Repr

/-- chromadb.ts:877-899: create a new promise, push its resolvers onto the
batch queue, arm the batch timer if it is not armed, and record the promise
in the pending-request map. -/
def enqueueRequest (text : String) (s : VMState) : EmbedOutcome × VMState :=
  let pid := s.nextPid
  (.enqueued pid,
    { s with
      batchQueue := s.batchQueue ++ [{ text := text, pid := pid }]
      batchTimer := true
      pendingEmbeddings := mapSet s.pendingEmbeddings (textHash text) pid
      nextPid := pid + 1 })

/-- `generateEmbedding` (chromadb.ts:857-900): hash the text; reuse an
in-flight request for the same hash if one exists; otherwise return a fresh
cache hit; otherwise enqueue a new request. -/
def generateEmbedding (text : String) (now : Nat) (s : VMState) :
    EmbedOutcome × VMState :=
  let h := textHash text
  match mapGet s.pendingEmbeddings h with
  | some pid => (.attached pid, s)
  | none =>
    match cacheLookup s.embeddingCache h now with
    | some v => (.cached v, s)
    | none => enqueueRequest text s

/-- Settling (resolving or rejecting) the promise of a batch item.  Settling
runs the `.finally` handler installed at chromadb.ts:895-897, which deletes
the pending-request map entry for the item's hash. -/
def settle (s : VMState) (item : BatchItem) (out : Settled) : VMState :=
  { s with
    settled := (item.pid, out) :: s.settled
    pendingEmbeddings := mapDelete s.pendingEmbeddings (textHash item.text) }

/-- `processBatch` (chromadb.ts:905-966).  The awaited provider response
(`openai.embeddings.create`, an external collaborator) is passed in as
`providerResp`; per the provider interface it has one vector per input text
in the same order, so the success loop `response.data.forEach((result,
index) => ...)` is a fold over `vecs.zip batch`.  The first component of the
result is the input of the provider call this flush issued (`none` when the
queue was empty and no call was made).  `batchTimer` is re-armed exactly when
requests remain queued (with a 100 ms delay on success and a 1000 ms backoff
on failure; the delay lengths do not affect the modelled state). -/
def processBatch (providerResp : Except String (List Vec)) (now : Nat) (s : VMState) :
    Option (List String) × VMState :=
  let s := { s with batchTimer := false }
  if s.batchQueue.isEmpty then (none, s)
  else
    let batch := s.batchQueue.take BATCH_SIZE
    let rest := s.batchQueue.drop BATCH_SIZE
    let texts := batch.map (·.text)
    let s := { s with batchQueue := rest }
    match providerResp with
    | .ok vecs =>
      let s := (vecs.zip batch).foldl
        (fun st p =>
          let st := { st with
            embeddingCache := cachePut st.embeddingCache (textHash p.2.text) p.1 now }
          settle st p.2 (.resolved p.1)) s
      (some texts, { s with batchTimer := !rest.isEmpty })
    | .error msg =>
      let s := batch.foldl
        (fun st item =>
          settle st item (.rejected ("Failed to generate embedding: " ++ msg))) s
      (some texts, { s with batchTimer := !rest.isEmpty })

/-- Repeatedly fire the batch timer until the queue is empty (the timer
re-arms itself in `processBatch` whenever work remains), collecting the
input of each provider call.  `resp` maps a provider-call input to the
awaited response.  `fuel` bounds the recursion; any `fuel ≥` the queue
length is enough, because every flush drains at least one request. -/
def drainAux (resp : List String → Except String (List Vec)) (now : Nat) :
    Nat → VMState → List (List String)
  | 0, _ => []
  | fuel + 1, s =>
    if s.batchQueue.isEmpty then []
    else
      let texts := (s.batchQueue.take BATCH_SIZE).map (·.text)
      texts :: drainAux resp now fuel (processBatch (resp texts) now s).2

/-! ## The function store (chromadb.ts:992-1079)

`storeFileContext` parses the file, returns untouched when the parser found
nothing, otherwise synchronously removes every stored record whose
`filePath` equals the given path and then pushes one new record per parsed
function as its embedding promise resolves.  The provider's embedding of a
content string is the parameter `embOf`; `now` is `Date.now()` at record
creation. -/

/-- The TypeScript `FunctionData` interface (chromadb.ts:562-573). -/
structure FunctionData where
  functionName : String
  content : String
  parameters : List String
  returnType : String
  filePath : Option String := none
  id : Option String := none
  distance : Option ℚ := none
  embedding : Option Vec := none
  lastUpdated : Option Nat := none
  deriving DecidableEq, Repr

/-- chromadb.ts:1034-1036: the record id
`createHash("sha256").update(filePath + "::" + functionName).digest("hex")`,
an injective digest modelled by its preimage. -/
def functionId (filePath : String) (functionName : String) : String :=
  filePath ++ "::" ++ functionName

/-- The record pushed at chromadb.ts:1046-1055. -/
def mkStoredFunction (filePath : String) (now : Nat) (f : ParsedFunction) (emb : Vec) :
    FunctionData :=
  { functionName := f.functionName
    content := f.content
    parameters := f.parameters
    returnType := f.returnType
    filePath := some filePath
    id := some (functionId filePath f.functionName)
    embedding := some emb
    lastUpdated := some now }

/-- The overall effect of `storeFileContext` (chromadb.ts:992-1079) on the
`functionStore` once every embedding promise has resolved. -/
def storeFileContext (filePath content : String) (embOf : String → Vec) (now : Nat)
    (store : List FunctionData) : List FunctionData :=
  let functions := parseCFunctions content
  if functions.length = 0 then store
  else
    let store := store.filter (fun f => f.filePath ≠ some filePath)
    store ++ functions.map (fun f => mkStoredFunction filePath now f (embOf f.content))

/-- The successive values of `functionStore` that a concurrently running
reader (such as `searchSimilarFunctions`, which reads the array after its own
`await`) can observe during one `storeFileContext` call: the store before the
call, the store right after the synchronous removal of the old records for
the path (chromadb.ts:1024-1026), and the store after each embedding promise
resolves and pushes its record (chromadb.ts:1041-1058).  Push order follows
the order in which the embedding promises resolve; the list below is the
schedule in which they resolve in queue order. -/
def storeFileContextStates (filePath content : String) (embOf : String → Vec)
    (now : Nat) (store : List FunctionData) : List (List FunctionData) :=
  let functions := parseCFunctions content
  if functions.length = 0 then [store]
  else
    let removed := store.filter (fun f => f.filePath ≠ some filePath)
    store :: (functions.map (fun f => mkStoredFunction filePath now f (embOf f.content))).scanl
      (fun st rec => st ++ [rec]) removed

/-! ## Helper lemmas -/

theorem mapGet_mapSet_self {α β : Type} [DecidableEq α] (m : List (α × β)) (k : α) (v : β) :
    mapGet (mapSet m k v) k = some v := by
  simp [mapSet, mapGet]

theorem mapGet_mapDelete_self {α β : Type} [DecidableEq α] (m : List (α × β)) (k : α) :
    mapGet (mapDelete m k) k = none := by
  induction m with
  | nil => rfl
  | cons p r ih =>
    by_cases h : p.1 = k
    · simpa [mapDelete, h] using ih
    · simpa [mapDelete, mapGet, h] using ih

theorem mapGet_mapDelete_none {α β : Type} [DecidableEq α] (m : List (α × β)) (k h : α)
    (hm : mapGet m h = none) : mapGet (mapDelete m k) h = none := by
  induction m with
  | nil => rfl
  | cons p r ih =>
    simp only [mapGet] at hm
    by_cases hp : p.1 = h
    · simp [hp] at hm
    · by_cases hk : p.1 = k
      · simpa [mapDelete, hk] using ih (by simpa [hp] using hm)
      · simpa [mapDelete, mapGet, hp, hk] using ih (by simpa [hp] using hm)

theorem settle_batchQueue (st : VMState) (i : BatchItem) (o : Settled) :
    (settle st i o).batchQueue = st.batchQueue := rfl

theorem settle_embeddingCache (st : VMState) (i : BatchItem) (o : Settled) :
    (settle st i o).embeddingCache = st.embeddingCache := rfl

theorem foldl_batchQueue_invariant {α : Type} (f : VMState → α → VMState)
    (hf : ∀ st a, (f st a).batchQueue = st.batchQueue) :
    ∀ (l : List α) (st : VMState), (l.foldl f st).batchQueue = st.batchQueue := by
  intro l
  induction l with
  | nil => intro st; rfl
  | cons a r ih => intro st; rw [List.foldl_cons, ih, hf]

theorem foldl_embeddingCache_invariant {α : Type} (f : VMState → α → VMState)
    (hf : ∀ st a, (f st a).embeddingCache = st.embeddingCache) :
    ∀ (l : List α) (st : VMState), (l.foldl f st).embeddingCache = st.embeddingCache := by
  intro l
  induction l with
  | nil => intro st; rfl
  | cons a r ih => intro st; rw [List.foldl_cons, ih, hf]

/-- Each flush drains exactly the first `BATCH_SIZE` queued requests,
whatever the provider response was. -/
theorem processBatch_batchQueue (resp : Except String (List Vec)) (now : Nat) (s : VMState) :
    ((processBatch resp now s).2).batchQueue = s.batchQueue.drop BATCH_SIZE := by
  unfold processBatch
  by_cases h : s.batchQueue.isEmpty
  · have hq : s.batchQueue = [] := by simpa [List.isEmpty_iff] using h
    simp [h, hq]
  · cases resp with
    | ok vecs =>
      simp only [h, Bool.false_eq_true, if_false]
      refine foldl_batchQueue_invariant _ (fun st a => ?_) _ _
      rfl
    | error msg =>
      simp only [h, Bool.false_eq_true, if_false]
      refine foldl_batchQueue_invariant _ (fun st a => ?_) _ _
      rfl

/-- Concatenating the inputs of all provider calls issued while draining the
queue recovers exactly the queued texts, in order (each text is sent to the
provider exactly once). -/
theorem drainAux_flatten (resp : List String → Except String (List Vec)) (now : Nat) :
    ∀ (fuel : Nat) (s : VMState), s.batchQueue.length ≤ fuel →
      (drainAux resp now fuel s).flatten = s.batchQueue.map (·.text) := by
  intro fuel
  induction fuel with
  | zero =>
    intro s hs
    have hq : s.batchQueue = [] := List.eq_nil_of_length_eq_zero (Nat.le_zero.mp hs)
    simp [drainAux, hq]
  | succ n ih =>
    intro s hs
    by_cases h : s.batchQueue.isEmpty
    · have hq : s.batchQueue = [] := by simpa [List.isEmpty_iff] using h
      simp [drainAux, h, hq]
    · have hlen : ((processBatch (resp ((s.batchQueue.take BATCH_SIZE).map (·.text))) now s).2).batchQueue.length ≤ n := by
        rw [processBatch_batchQueue]
        have h1 : s.batchQueue.length ≤ n + 1 := hs
        simp only [List.length_drop, BATCH_SIZE]
        omega
      simp only [drainAux, h, Bool.false_eq_true, if_false, List.flatten_cons]
      rw [ih _ hlen, processBatch_batchQueue]
      rw [← List.map_append, List.take_append_drop]

/-- No provider call issued while draining the queue has more than
`BATCH_SIZE` input texts. -/
theorem drainAux_length_le (resp : List String → Except String (List Vec)) (now : Nat) :
    ∀ (fuel : Nat) (s : VMState) (input : List String),
      input ∈ drainAux resp now fuel s → input.length ≤ BATCH_SIZE := by
  intro fuel
  induction fuel with
  | zero => intro s input hmem; simp [drainAux] at hmem
  | succ n ih =>
    intro s input hmem
    by_cases h : s.batchQueue.isEmpty
    · simp [drainAux, h] at hmem
    · simp only [drainAux, h, Bool.false_eq_true, if_false, List.mem_cons] at hmem
      cases hmem with
      | inl heq =>
        subst heq
        simp only [List.length_map]
        exact le_trans (List.length_take_le _ _) (le_refl _)
      | inr hmem => exact ih _ _ hmem

theorem mapGet_settle_settled (st : VMState) (i : BatchItem) (o : Settled) (p : Nat) :
    mapGet ((settle st i o).settled) p = if i.pid = p then some o else mapGet st.settled p :=
  rfl

/-- After folding a batch-wide rejection over a list of items, every item of
the list has its promise recorded as rejected with that error. -/
theorem foldl_reject_settled (msg : String) :
    ∀ (l : List BatchItem) (st : VMState) (p : Nat),
      ((∃ i ∈ l, i.pid = p) ∨ mapGet st.settled p = some (.rejected msg)) →
      mapGet ((l.foldl (fun st item => settle st item (.rejected msg)) st).settled) p =
        some (.rejected msg) := by
  intro l
  induction l with
  | nil =>
    intro st p hp
    cases hp with
    | inl h => simp at h
    | inr h => simpa using h
  | cons i0 tl ih =>
    intro st p hp
    rw [List.foldl_cons]
    apply ih
    by_cases hpid : i0.pid = p
    · right
      rw [mapGet_settle_settled]
      simp [hpid]
    · cases hp with
      | inl h =>
        rcases h with ⟨i, hi, hip⟩
        rcases List.mem_cons.mp hi with h0 | htl
        · exact absurd (h0 ▸ hip) hpid
        · exact Or.inl ⟨i, htl, hip⟩
      | inr h =>
        right
        rw [mapGet_settle_settled]
        simpa [hpid] using h

/-- Folding settlements over a list of items removes every settled item's
pending-request entry, and never re-adds one. -/
theorem foldl_settle_pending_none (mkOut : BatchItem → Settled) :
    ∀ (l : List BatchItem) (st : VMState) (h : String),
      ((∃ i ∈ l, textHash i.text = h) ∨ mapGet st.pendingEmbeddings h = none) →
      mapGet ((l.foldl (fun st item => settle st item (mkOut item)) st).pendingEmbeddings) h =
        none := by
  intro l
  induction l with
  | nil =>
    intro st h hp
    cases hp with
    | inl hmem => simp at hmem
    | inr hnone => simpa using hnone
  | cons i0 tl ih =>
    intro st h hp
    rw [List.foldl_cons]
    apply ih
    by_cases hh : textHash i0.text = h
    · right
      show mapGet (mapDelete st.pendingEmbeddings (textHash i0.text)) h = none
      rw [hh]
      exact mapGet_mapDelete_self _ _
    · cases hp with
      | inl hmem =>
        rcases hmem with ⟨i, hi, hih⟩
        rcases List.mem_cons.mp hi with h0 | htl
        · exact absurd (h0 ▸ hih) hh
        · exact Or.inl ⟨i, htl, hih⟩
      | inr hnone =>
        right
        exact mapGet_mapDelete_none _ _ _ hnone

/-- A record produced by the basic loop body is never named `main` (the guard
at chromadb.ts:633-635). -/
theorem processMatchBasic_no_main (m : RegexMatch) (f : ParsedFunction)
    (hf : f ∈ processMatchBasic m) : f.functionName ≠ "main" := by
  unfold processMatchBasic at hf
  split at hf
  · simp at hf
  · simp only [] at hf
    split at hf
    · simp at hf
    · rename_i hname
      simp only [List.mem_singleton] at hf
      subst hf
      simpa using hname

/-- The basic exec loop only ever appends records produced by
`processMatchBasic`, so it preserves main-freedom of the accumulator. -/
theorem execBasicAux_no_main :
    ∀ (fuel : Nat) (prevIsLT : Bool) (l : List Char) (acc : List ParsedFunction),
      (∀ f ∈ acc, f.functionName ≠ "main") →
      ∀ f ∈ execBasicAux fuel prevIsLT l acc, f.functionName ≠ "main" := by
  intro fuel
  induction fuel with
  | zero =>
    intro prev l acc hacc f hf
    exact hacc f (by simpa [execBasicAux] using hf)
  | succ n ih =>
    intro prev l acc hacc f hf
    cases l with
    | nil => exact hacc f (by simpa [execBasicAux] using hf)
    | cons c r =>
      simp only [execBasicAux] at hf
      split at hf
      · split at hf
        · rename_i m hm
          refine ih _ _ _ ?_ f hf
          intro g hg
          rcases List.mem_append.mp hg with hg | hg
          · exact hacc g hg
          · exact processMatchBasic_no_main _ _ hg
        · exact ih _ _ _ hacc f hf
      · exact ih _ _ _ hacc f hf

/-- The first-pass push of the enhanced parser preserves distinctness of the
collected function names (the dedup guard). -/
theorem pushEnh_nodup (m : RegexMatch) (acc : List ParsedFunction)
    (h : (acc.map (·.functionName)).Nodup) :
    ((pushEnh m acc).map (·.functionName)).Nodup := by
  unfold pushEnh
  split
  · exact h
  · simp only []
    split
    · exact h
    · split
      · exact h
      · rename_i hdup
        simp only [List.map_append, List.map_cons, List.map_nil]
        rw [List.nodup_append]
        refine ⟨h, List.nodup_singleton _, ?_⟩
        intro a ha hb
        simp only [List.mem_singleton] at hb
        subst hb
        rcases List.mem_map.mp ha with ⟨g, hg, hga⟩
        exact hdup (List.any_eq_true.mpr ⟨g, hg, by simpa using hga⟩)

/-- The second-pass push likewise preserves distinctness. -/
theorem pushRelaxed_nodup (m : RegexMatch) (acc : List ParsedFunction)
    (h : (acc.map (·.functionName)).Nodup) :
    ((pushRelaxed m acc).map (·.functionName)).Nodup := by
  unfold pushRelaxed
  simp only []
  split
  · exact h
  · rename_i hguard
    simp only [List.map_append, List.map_cons, List.map_nil]
    rw [List.nodup_append]
    refine ⟨h, List.nodup_singleton _, ?_⟩
    intro a ha hb
    simp only [List.mem_singleton] at hb
    subst hb
    rcases List.mem_map.mp ha with ⟨g, hg, hga⟩
    apply hguard
    rw [Bool.or_eq_true]
    exact Or.inr (List.any_eq_true.mpr ⟨g, hg, by simpa using hga⟩)

/-- The enhanced exec loop preserves distinctness of the collected names for
any push operation that preserves it. -/
theorem execEnhAux_nodup (tryM : List Char → Option (RegexMatch × List Char))
    (push : RegexMatch → List ParsedFunction → List ParsedFunction)
    (hpush : ∀ m acc, (acc.map (·.functionName)).Nodup →
      ((push m acc).map (·.functionName)).Nodup) :
    ∀ (fuel : Nat) (prevIsLT : Bool) (l : List Char) (acc : List ParsedFunction),
      (acc.map (·.functionName)).Nodup →
      ((execEnhAux tryM push fuel prevIsLT l acc).map (·.functionName)).Nodup := by
  intro fuel
  induction fuel with
  | zero => intro prev l acc hacc; simpa [execEnhAux] using hacc
  | succ n ih =>
    intro prev l acc hacc
    cases l with
    | nil => simpa [execEnhAux] using hacc
    | cons c r =>
      simp only [execEnhAux]
      split
      · exact ih _ _ _ (hpush _ _ hacc)
      · exact ih _ _ _ hacc

/-! ## Claim theorems -/

/-- C1: the spec scenario says that extracting
"int add(int a, int b) { return a + b; }" yields one record with
functionName "add", returnType "int" and parameters ["int a", "int b"].
The code disagrees: the closing-brace fragment of the regex,
(?:^|\n)\s*\}, only matches a brace preceded by a line break, so on the
one-line source neither the basic parser nor the enhanced parser finds any
function and both return zero records.  The same source with the body broken
across lines yields exactly the record the scenario describes, confirming
that the newline requirement before the closing brace is what loses the
one-line function. -/
theorem parseCFunctions_add_scenario :
    parseCFunctions "int add(int a, int b) \x7b return a + b; \x7d" = [] ∧
    parseCFunctionsExt "int add(int a, int b) \x7b return a + b; \x7d" = [] ∧
    parseCFunctions "int add(int a, int b) \x7b\n  return a + b;\n\x7d" =
      [{ functionName := "add",
         content := "int add(int a, int b) \x7b\n  return a + b;\n\x7d",
         parameters := ["int a", "int b"],
         returnType := "int" }] := by
  refine ⟨by decide, by decide, by decide⟩

/-- C8: for every source text the extractor terminates (it is a total
function of the input) and returns a list in which no record is named
"main" (the guard at chromadb.ts:633-635); in particular the spec scenario
"void main(void) { return; }" extracts to zero records. -/
theorem parseCFunctions_excludes_main :
    (∀ s : String, "main" ∉ (parseCFunctions s).map (·.functionName)) ∧
    parseCFunctions "void main(void) \x7b return; \x7d" = [] ∧
    parseCFunctions "void main(void) \x7b\n  return;\n\x7d" = [] := by
  refine ⟨?_, by decide, by decide⟩
  intro s hmem
  rcases List.mem_map.mp hmem with ⟨f, hf, hname⟩
  exact execBasicAux_no_main _ _ _ [] (by simp) f hf hname

/-- C9 counterexample: the basic parser (chromadb.ts:601-654) has no
dedup-by-functionName guard, so a source text that defines the name `f`
twice yields two records with the same functionName — functionName is not
unique in its output. -/
theorem parseCFunctions_duplicate_names :
    (parseCFunctions "int f(int a)\n\x7b\nx;\n\x7d\nint f(int b)\n\x7b\ny;\n\x7d").map
        (·.functionName) = ["f", "f"] ∧
    ¬ ((parseCFunctions "int f(int a)\n\x7b\nx;\n\x7d\nint f(int b)\n\x7b\ny;\n\x7d").map
        (·.functionName)).Nodup := by
  refine ⟨by decide, by decide⟩

/-- C9 (amended): the enhanced extractor of the extension module checks, in
both of its passes, whether a candidate's functionName was already claimed
and only pushes unclaimed names, so every functionName is unique in its
output, for every source text. -/
theorem parseCFunctionsExt_names_nodup (s : String) :
    ((parseCFunctionsExt s).map (·.functionName)).Nodup := by
  unfold parseCFunctionsExt
  simp only []
  split
  · exact execEnhAux_nodup _ _ pushRelaxed_nodup _ _ _ [] (by simp)
  · exact execEnhAux_nodup _ _ pushEnh_nodup _ _ _ [] (by simp)

/-- C6: the claim says cosine similarity fails loudly both for mismatched
dimensions and for zero-length vectors.  The code throws for mismatched
lengths, but two zero-length vectors have equal lengths, pass the only
guard, and the function silently returns the number 0/(sqrt 0 * sqrt 0),
which is NaN — no error is raised. -/
theorem cosineSimilarity_error_behaviour :
    (∀ a b : Vec, a.length ≠ b.length →
      cosineSimilarity a b = .error "Vectors must be of the same length") ∧
    cosineSimilarity [] [] = .ok { dotProduct := 0, normA := 0, normB := 0 } ∧
    CosineRaw.isNaN { dotProduct := 0, normA := 0, normB := 0 } = true := by
  refine ⟨?_, by rfl, by simp [CosineRaw.isNaN]⟩
  intro a b h
  simp [cosineSimilarity, h]

/-- Witness for the hypothesis of the mismatched-dimension part of
`cosineSimilarity_error_behaviour`. -/
theorem cosineSimilarity_error_behaviour_witness :
    cosineSimilarity [1] [] = .error "Vectors must be of the same length" :=
  cosineSimilarity_error_behaviour.1 [1] [] (by decide)

/-- C4 counterexample: a lookup that finds an expired entry does NOT remove
it.  With a cache holding an entry for "t" written at time 0 (so it expires
at CACHE_TTL), a generateEmbedding call at time CACHE_TTL treats the entry
as a miss (it enqueues a new request) yet leaves the embedding cache exactly
as it was: the expired entry is still present afterwards. -/
theorem cacheLookup_expired_entry_not_removed :
    cacheLookup (cachePut [] "t" [1] 0) "t" CACHE_TTL = none ∧
    (generateEmbedding "t" CACHE_TTL
        { initState with embeddingCache := cachePut [] "t" [1] 0 }).1 =
      .enqueued 0 ∧
    (generateEmbedding "t" CACHE_TTL
        { initState with embeddingCache := cachePut [] "t" [1] 0 }).2.embeddingCache =
      cachePut [] "t" [1] 0 ∧
    mapGet (generateEmbedding "t" CACHE_TTL
        { initState with embeddingCache := cachePut [] "t" [1] 0 }).2.embeddingCache "t" =
      some { embedding := [1], timestamp := 0, expiresAt := CACHE_TTL } := by
  refine ⟨by rfl, by rfl, by rfl, by rfl⟩

/-- C4 (amended): after a put at time `now`, a lookup at `now2 < now +
CACHE_TTL` returns the stored vector and a lookup at `now2 ≥ now + CACHE_TTL`
is a miss; but a lookup never mutates the cache — `generateEmbedding` leaves
`embeddingCache` unchanged in every case (expired entries are only dropped by
`loadEmbeddingCache` at startup). -/
theorem cache_roundtrip_ttl (c : List (String × CacheEntry)) (t : String) (v : Vec)
    (now now2 : Nat) :
    (now2 < now + CACHE_TTL → cacheLookup (cachePut c t v now) t now2 = some v) ∧
    (now + CACHE_TTL ≤ now2 → cacheLookup (cachePut c t v now) t now2 = none) ∧
    (∀ s : VMState, (generateEmbedding t now2 s).2.embeddingCache = s.embeddingCache) := by
  refine ⟨?_, ?_, ?_⟩
  · intro h
    unfold cacheLookup cachePut
    rw [mapGet_mapSet_self]
    simp [h]
  · intro h
    unfold cacheLookup cachePut
    rw [mapGet_mapSet_self]
    simp
    omega
  · intro s
    unfold generateEmbedding
    simp only []
    cases h1 : mapGet s.pendingEmbeddings (textHash t) with
    | some pid => simp [h1]
    | none =>
      cases h2 : cacheLookup s.embeddingCache (textHash t) now2 with
      | some v2 => simp [h1, h2]
      | none => simp [h1, h2, enqueueRequest]

/-- Witness for `cache_roundtrip_ttl`: both TTL hypotheses discharged at
concrete times. -/
theorem cache_roundtrip_ttl_witness :
    cacheLookup (cachePut [] "t" [1] 5) "t" 6 = some [1] ∧
    cacheLookup (cachePut [] "t" [1] 5) "t" (5 + CACHE_TTL) = none :=
  ⟨(cache_roundtrip_ttl [] "t" [1] 5 6).1 (by decide),
   (cache_roundtrip_ttl [] "t" [1] 5 (5 + CACHE_TTL)).2.1 (by decide)⟩

/-- C10: when the parser finds no functions in the content,
`storeFileContext` returns before touching the store (the early return at
chromadb.ts:1011-1017 precedes the removal filter), so the store — including
every previously stored record for the same path — is left exactly as it
was. -/
theorem storeFileContext_empty_parse_frame (filePath content : String)
    (embOf : String → Vec) (now : Nat) (store : List FunctionData)
    (h : parseCFunctions content = []) :
    storeFileContext filePath content embOf now store = store ∧
    ∀ r ∈ store, r ∈ storeFileContext filePath content embOf now store := by
  have heq : storeFileContext filePath content embOf now store = store := by
    unfold storeFileContext
    rw [h]
    rfl
  refine ⟨heq, fun r hr => ?_⟩
  rw [heq]
  exact hr

/-- Witness for `storeFileContext_empty_parse_frame`: the empty content
parses to no functions, and a store holding a record for the same path is
untouched. -/
theorem storeFileContext_empty_parse_frame_witness :
    storeFileContext "a.c" "" (fun _ => []) 3
        [mkStoredFunction "a.c" 0 ⟨"old", "int old(void)", [], "int"⟩ [2]] =
      [mkStoredFunction "a.c" 0 ⟨"old", "int old(void)", [], "int"⟩ [2]] :=
  (storeFileContext_empty_parse_frame "a.c" "" (fun _ => []) 3
    [mkStoredFunction "a.c" 0 ⟨"old", "int old(void)", [], "int"⟩ [2]] (by rfl)).1

/-- C7: `storeFileContext` is not an atomic swap.  It removes the old
records for the path synchronously (chromadb.ts:1024-1026) and pushes each
new record only when its embedding promise resolves (after an await), so a
reader running between those points observes a store that contains neither
the old record set nor the new one.  Concretely: starting from a store with
one record for "a.c", the observable store states during the call are
[old store, [], new store] — and the middle state differs from both the
complete old set and the complete new set. -/
theorem storeFileContext_not_atomic :
    storeFileContextStates "a.c" "int add(int a, int b) \x7b\n  return a + b;\n\x7d"
        (fun _ => [1]) 7
        [mkStoredFunction "a.c" 0 ⟨"old", "int old(void)", [], "int"⟩ [2]] =
      [[mkStoredFunction "a.c" 0 ⟨"old", "int old(void)", [], "int"⟩ [2]],
       [],
       [mkStoredFunction "a.c" 7
          ⟨"add", "int add(int a, int b) \x7b\n  return a + b;\n\x7d",
            ["int a", "int b"], "int"⟩ [1]]] ∧
    ([] : List FunctionData) ≠
      [mkStoredFunction "a.c" 0 ⟨"old", "int old(void)", [], "int"⟩ [2]] ∧
    ([] : List FunctionData) ≠
      [mkStoredFunction "a.c" 7
        ⟨"add", "int add(int a, int b) \x7b\n  return a + b;\n\x7d",
          ["int a", "int b"], "int"⟩ [1]] := by
  refine ⟨by decide, by decide, by decide⟩

/-- C3: when the provider call of a flush fails, the embedding cache is left
exactly as it was before the call, every request in that batch is rejected
with the same error message, and every rejected request's entry in the
pending-request map is gone once its promise has settled. -/
theorem processBatch_failure_rejects_batch (msg : String) (now : Nat) (s : VMState) :
    ((processBatch (.error msg) now s).2).embeddingCache = s.embeddingCache ∧
    ∀ item ∈ s.batchQueue.take BATCH_SIZE,
      mapGet ((processBatch (.error msg) now s).2).settled item.pid =
        some (.rejected ("Failed to generate embedding: " ++ msg)) ∧
      mapGet ((processBatch (.error msg) now s).2).pendingEmbeddings (textHash item.text) =
        none := by
  unfold processBatch
  by_cases h : s.batchQueue.isEmpty
  · have hq : s.batchQueue = [] := by simpa [List.isEmpty_iff] using h
    refine ⟨by simp [h], ?_⟩
    intro item hitem
    rw [hq] at hitem
    simp [BATCH_SIZE] at hitem
  · simp only [h, Bool.false_eq_true, if_false]
    refine ⟨?_, ?_⟩
    · refine foldl_embeddingCache_invariant _ (fun st a => ?_) _ _
      rfl
    · intro item hitem
      constructor
      · exact foldl_reject_settled ("Failed to generate embedding: " ++ msg) _ _ _
          (Or.inl ⟨item, hitem, rfl⟩)
      · exact foldl_settle_pending_none _ _ _ _ (Or.inl ⟨item, hitem, rfl⟩)

/-- Witness for `processBatch_failure_rejects_batch`: a queue with one
request; after a failed flush the entry is rejected with the wrapped message,
its pending entry is gone, and the cache is unchanged. -/
theorem processBatch_failure_rejects_batch_witness :
    mapGet ((processBatch (.error "boom") 0
        { initState with
          batchQueue := [{ text := "t", pid := 0 }]
          pendingEmbeddings := [("t", 0)], nextPid := 1 }).2).settled 0 =
      some (.rejected ("Failed to generate embedding: boom")) :=
  ((processBatch_failure_rejects_batch "boom" 0
      { initState with
        batchQueue := [{ text := "t", pid := 0 }]
        pendingEmbeddings := [("t", 0)], nextPid := 1 }).2
    { text := "t", pid := 0 } (by decide)).1

/-- If the pending-request map holds an in-flight promise for the text's
hash, `generateEmbedding` returns that promise and leaves the state
untouched (chromadb.ts:862-865). -/
theorem generateEmbedding_attached (t : String) (now : Nat) (s : VMState) (pid : Nat)
    (h : mapGet s.pendingEmbeddings (textHash t) = some pid) :
    generateEmbedding t now s = (.attached pid, s) := by
  unfold generateEmbedding
  simp only [h]

/-- C2: when an earlier request for the same text is still in flight, a
second `generateEmbedding` call for that text attaches to the in-flight
promise: starting from a state with no pending request, no fresh cache entry
and no queued request for `t`, the first call enqueues a new promise; a
second call before the batch settles returns exactly that promise and
changes nothing; `t` then sits exactly once in the batch queue and, over any
complete drain of the queue, is sent to the provider exactly once. -/
theorem generateEmbedding_inflight_dedup (t : String) (now now2 : Nat) (s0 : VMState)
    (hpend : mapGet s0.pendingEmbeddings (textHash t) = none)
    (hcache : cacheLookup s0.embeddingCache (textHash t) now = none)
    (hq : ((s0.batchQueue.map (·.text)).count t) = 0) :
    (generateEmbedding t now s0).1 = .enqueued s0.nextPid ∧
    generateEmbedding t now2 (generateEmbedding t now s0).2 =
      (.attached s0.nextPid, (generateEmbedding t now s0).2) ∧
    (((generateEmbedding t now s0).2.batchQueue.map (·.text)).count t) = 1 ∧
    ∀ (resp : List String → Except String (List Vec)) (fuel : Nat),
      (generateEmbedding t now s0).2.batchQueue.length ≤ fuel →
      ((drainAux resp now2 fuel (generateEmbedding t now s0).2).flatten.count t) = 1 := by
  have hstep : generateEmbedding t now s0 = enqueueRequest t s0 := by
    unfold generateEmbedding
    simp only [hpend, hcache]
  have hqueue : (generateEmbedding t now s0).2.batchQueue =
      s0.batchQueue ++ [{ text := t, pid := s0.nextPid }] := by
    rw [hstep]; rfl
  have hcount : (((generateEmbedding t now s0).2.batchQueue.map (·.text)).count t) = 1 := by
    rw [hqueue]
    simp [List.count_append, hq]
  refine ⟨by rw [hstep]; rfl, ?_, hcount, ?_⟩
  · have hpend2 : mapGet (generateEmbedding t now s0).2.pendingEmbeddings (textHash t) =
        some s0.nextPid := by
      rw [hstep]
      show mapGet (mapSet s0.pendingEmbeddings (textHash t) s0.nextPid) (textHash t) = _
      exact mapGet_mapSet_self _ _ _
    exact generateEmbedding_attached t now2 _ _ hpend2
  · intro resp fuel hfuel
    rw [drainAux_flatten resp now2 fuel _ hfuel]
    exact hcount

/-- Witness for `generateEmbedding_inflight_dedup`: concrete instantiation
from the initial state. -/
theorem generateEmbedding_inflight_dedup_witness :
    ((drainAux (fun _ => .error "e") 0 1
        (generateEmbedding "a" 0 initState).2).flatten.count "a") = 1 :=
  (generateEmbedding_inflight_dedup "a" 0 0 initState (by rfl) (by rfl) (by rfl)).2.2.2
    (fun _ => .error "e") 1 (by decide)

/-- C5: enqueueing 15 distinct uncached texts within one coalescing window
and then letting the timer drain the queue issues exactly two provider
calls — the first with the first ten texts in enqueue order, the second with
the remaining five — and, in general, no flush ever issues a provider call
with more than `BATCH_SIZE` input texts. -/
theorem batch_of_15_splits_into_10_and_5 :
    (∀ (resp : List String → Except String (List Vec)) (now fuel : Nat) (s : VMState)
        (input : List String),
      input ∈ drainAux resp now fuel s → input.length ≤ BATCH_SIZE) ∧
    drainAux (fun ts => .ok (ts.map (fun _ => ([1] : Vec)))) 0 15
        (List.foldl (fun st t => (generateEmbedding t 0 st).2) initState
          ["t01","t02","t03","t04","t05","t06","t07","t08","t09","t10",
           "t11","t12","t13","t14","t15"]) =
      [["t01","t02","t03","t04","t05","t06","t07","t08","t09","t10"],
       ["t11","t12","t13","t14","t15"]] := by
  refine ⟨fun resp now fuel s input h => drainAux_length_le resp now fuel s input h, ?_⟩
  decide

/-- Witness for the bounded-batch part of `batch_of_15_splits_into_10_and_5`
at a concrete drain. -/
theorem batch_of_15_splits_into_10_and_5_witness :
    (["t01","t02","t03","t04","t05","t06","t07","t08","t09","t10"] :
      List String).length ≤ BATCH_SIZE :=
  batch_of_15_splits_into_10_and_5.1 (fun _ => .error "e") 0 15
    (List.foldl (fun st t => (generateEmbedding t 0 st).2) initState
      ["t01","t02","t03","t04","t05","t06","t07","t08","t09","t10",
       "t11","t12","t13","t14","t15"])
    ["t01","t02","t03","t04","t05","t06","t07","t08","t09","t10"]
    (by decide)
